import Mathlib

/-!
Shallow embedding of `Zillow_Scraper.py` (class `ZillowScraper`) and proofs
about its area partitioner, collector and deduplication logic.

Coordinates are modelled as exact rationals (`ℚ`); Python's `int(x)` on the
nonnegative quotients that occur here is `Int.toNat ∘ Int.floor`.
-/

namespace ZillowScraper

/-- `MIN_ZOOM_LEVEL = 15` — the constant set in `__init__`. -/
def MIN_ZOOM_LEVEL : ℤ := 15

/-- `MAX_RESULTS_PER_QUERY = 500` — the constant set in `__init__`. -/
def MAX_RESULTS_PER_QUERY : ℕ := 500

/-- `self.categories = ['for_sale', 'for_rent', 'sold']`. -/
def categories : List String := ["for_sale", "for_rent", "sold"]

/-- A section dict as built by `calculate_zoom_sections`:
keys `ne_lat`, `sw_lat`, `ne_long`, `sw_long`, `zoom`. -/
structure Section where
  ne_lat : ℚ
  sw_lat : ℚ
  ne_long : ℚ
  sw_long : ℚ
  zoom : ℤ
  deriving DecidableEq, Repr

/-- `sections_lat = max(1, int(lat_distance / 0.01))` with
`lat_distance = abs(ne_lat - sw_lat)`; the quotient is nonnegative, so
Python's `int` truncation is the floor. -/
def sections_lat (ne_lat sw_lat : ℚ) : ℕ :=
  max 1 (Int.toNat ⌊|ne_lat - sw_lat| / (1 / 100)⌋)

/-- `sections_long = max(1, int(long_distance / 0.01))` with
`long_distance = abs(ne_long - sw_long)`. -/
def sections_long (ne_long sw_long : ℚ) : ℕ :=
  max 1 (Int.toNat ⌊|ne_long - sw_long| / (1 / 100)⌋)

/-- `lat_step = lat_distance / sections_lat`. -/
def lat_step (ne_lat sw_lat : ℚ) : ℚ :=
  |ne_lat - sw_lat| / (sections_lat ne_lat sw_lat : ℚ)

/-- `long_step = long_distance / sections_long`. -/
def long_step (ne_long sw_long : ℚ) : ℚ :=
  |ne_long - sw_long| / (sections_long ne_long sw_long : ℚ)

/-- The section dict built in the loop body for row `i`, column `j`:
`{'ne_lat': sw_lat + (i+1)*lat_step, 'sw_lat': sw_lat + i*lat_step,
  'ne_long': sw_long + (j+1)*long_step, 'sw_long': sw_long + j*long_step,
  'zoom': self.MIN_ZOOM_LEVEL}`. -/
def mkSection (sw_lat sw_long latStep longStep : ℚ) (i j : ℕ) : Section :=
  { ne_lat := sw_lat + (i + 1) * latStep
    sw_lat := sw_lat + i * latStep
    ne_long := sw_long + (j + 1) * longStep
    sw_long := sw_long + j * longStep
    zoom := MIN_ZOOM_LEVEL }

/-- `calculate_zoom_sections(ne_lat, ne_long, sw_lat, sw_long, initial_zoom)`:
`for i in range(sections_lat): for j in range(sections_long): append(section)`.
Note the `initial_zoom` parameter is accepted but never used — each section's
`zoom` is `self.MIN_ZOOM_LEVEL`. -/
def calculate_zoom_sections (ne_lat ne_long sw_lat sw_long : ℚ)
    (_initial_zoom : ℤ) : List Section :=
  (List.range (sections_lat ne_lat sw_lat)).flatMap fun i =>
    (List.range (sections_long ne_long sw_long)).map fun j =>
      mkSection sw_lat sw_long (lat_step ne_lat sw_lat) (long_step ne_long sw_long) i j

example :
    calculate_zoom_sections (1/100) (1/100) 0 0 13 =
      [{ ne_lat := 1/100, sw_lat := 0, ne_long := 1/100, sw_long := 0, zoom := 15 }] := by
  with_unfolding_all decide

example : (calculate_zoom_sections 0 (5/100) 0 0 13).length = 5 := by
  with_unfolding_all decide

example : (calculate_zoom_sections (2/100) (3/100) 0 0 13).length = 6 := by
  with_unfolding_all decide

/-- A listing record returned by the fetch collaborator: an opaque mapping
whose `zpid` key may be absent (`result.get('zpid')` then yields `None`);
`payload` stands for all the other keys. -/
structure ListingRecord where
  zpid : Option String
  payload : ℕ
  deriving DecidableEq, Repr

/-- Python truthiness of the value of `result.get('zpid')`: `None` and the
empty string are falsy. -/
def truthy : Option String → Bool
  | none => false
  | some z => !(z == "")

/-- The dedup loop of `get_all_results` over one category's list, carrying
`seen_zpids`:
`for result in all_results[category]: zpid = result.get('zpid');
 if zpid and zpid not in seen_zpids: seen_zpids.add(zpid); unique_results.append(result)`. -/
def dedupeAux (seen_zpids : List String) : List ListingRecord → List ListingRecord
  | [] => []
  | result :: rest =>
    match result.zpid with
    | some zpid =>
      if zpid ≠ "" ∧ zpid ∉ seen_zpids then
        result :: dedupeAux (zpid :: seen_zpids) rest
      else
        dedupeAux seen_zpids rest
    | none => dedupeAux seen_zpids rest

/-- Deduplication of one category's accumulated list, starting from an empty
`seen_zpids` set. -/
def dedupe (results : List ListingRecord) : List ListingRecord :=
  dedupeAux [] results

/-- Spec-side reference formulation of §4.3, for comparison with `dedupe`:
walking the input in order while remembering all *earlier records*, a record
is kept iff it has a non-empty identifier and no earlier record in the
sequence carries the same identifier. -/
def keepFirst (earlier : List ListingRecord) : List ListingRecord → List ListingRecord
  | [] => []
  | r :: rs =>
    if truthy r.zpid ∧ ∀ e ∈ earlier, e.zpid ≠ r.zpid then
      r :: keepFirst (earlier ++ [r]) rs
    else
      keepFirst (earlier ++ [r]) rs

/-- Spec-side deduplication: `keepFirst` starting with no earlier records. -/
def specDedupe (results : List ListingRecord) : List ListingRecord :=
  keepFirst [] results

/-- The fetch collaborator: the category-dispatched `pyzill.for_sale` /
`pyzill.for_rent` / `pyzill.sold` call, already projected to its
`mapResults` list; an exception is an `Except.error`. -/
def Fetch : Type :=
  String → Section → ℤ → Except String (List ListingRecord)

/-- `get_results_for_box(box, zoom_value, category)`: dispatches on the
category and returns `mapResults`; any exception is caught and yields `[]`.
A category outside the three known ones leaves `results` unbound in the
Python body, raising a `NameError` that the same handler turns into `[]`. -/
def get_results_for_box (fetch : Fetch) (box : Section) (zoom_value : ℤ)
    (category : String) : List ListingRecord :=
  if category = "for_sale" ∨ category = "for_rent" ∨ category = "sold" then
    match fetch category box zoom_value with
    | .ok mapResults => mapResults
    | .error _ => []
  else
    []

/-- `all_results = {category: [] for category in self.categories}` modelled as
a total map that is `[]` away from the category keys (the Python dict has
exactly those keys and no others are ever read). -/
def emptyResults : String → List ListingRecord := fun _ => []

/-- The collection loop of `get_all_results`: sections outer, categories
inner, `all_results[category].extend(results)` per fetch. -/
def collectSections (fetch : Fetch) (sections : List Section)
    (init : String → List ListingRecord) : String → List ListingRecord :=
  sections.foldl
    (fun all_results sec =>
      categories.foldl
        (fun acc category => fun c =>
          if c = category then
            acc c ++ get_results_for_box fetch sec sec.zoom category
          else acc c)
        all_results)
    init

/-- The dedup pass of `get_all_results`:
`for category in self.categories: all_results[category] = unique_results`. -/
def dedupePass (all_results : String → List ListingRecord) :
    String → List ListingRecord :=
  categories.foldl
    (fun acc category => fun c =>
      if c = category then dedupe (acc c) else acc c)
    all_results

/-- `get_all_results(ne_lat, ne_long, sw_lat, sw_long, initial_zoom)`:
partition the box, accumulate fetch results per category over all sections
(passing each section's own `zoom` to `get_results_for_box`), then remove
duplicates per category. -/
def get_all_results (fetch : Fetch) (ne_lat ne_long sw_lat sw_long : ℚ)
    (initial_zoom : ℤ) : String → List ListingRecord :=
  let sections := calculate_zoom_sections ne_lat ne_long sw_lat sw_long initial_zoom
  dedupePass (collectSections fetch sections emptyResults)

example :
    dedupe
      [⟨some "a", 0⟩, ⟨some "b", 1⟩, ⟨some "a", 2⟩, ⟨none, 3⟩, ⟨some "b", 4⟩] =
      [⟨some "a", 0⟩, ⟨some "b", 1⟩] := by decide

example :
    specDedupe
      [⟨some "a", 0⟩, ⟨some "b", 1⟩, ⟨some "a", 2⟩, ⟨none, 3⟩, ⟨some "b", 4⟩] =
      [⟨some "a", 0⟩, ⟨some "b", 1⟩] := by decide

example : dedupe [⟨some "", 0⟩, ⟨none, 1⟩] = [] := by decide

/-! ### Basic facts about the partitioner -/

lemma sections_long_eq_sections_lat : sections_long = sections_lat := rfl

lemma long_step_eq_lat_step : long_step = lat_step := rfl

lemma sections_lat_pos (a c : ℚ) : 0 < sections_lat a c :=
  lt_of_lt_of_le one_pos (le_max_left _ _)

lemma cast_sections_lat_pos (a c : ℚ) : (0 : ℚ) < (sections_lat a c : ℚ) := by
  exact_mod_cast sections_lat_pos a c

lemma lat_step_nonneg (a c : ℚ) : 0 ≤ lat_step a c :=
  div_nonneg (abs_nonneg _) (le_of_lt (cast_sections_lat_pos a c))

lemma lat_step_pos {a c : ℚ} (h : c < a) : 0 < lat_step a c :=
  div_pos (abs_pos.2 (sub_ne_zero.2 (ne_of_gt h))) (cast_sections_lat_pos a c)

lemma sections_lat_mul_lat_step (a c : ℚ) :
    (sections_lat a c : ℚ) * lat_step a c = |a - c| := by
  rw [lat_step, mul_comm, div_mul_cancel₀ _ (ne_of_gt (cast_sections_lat_pos a c))]

lemma lat_step_eq_of_lt {a c : ℚ} (h : c < a) :
    lat_step a c = (a - c) / (sections_lat a c : ℚ) := by
  rw [lat_step, abs_of_pos (sub_pos.2 h)]

lemma sections_lat_eq_of_lt {a c : ℚ} (h : c < a) :
    sections_lat a c = max 1 (Int.toNat ⌊(a - c) / (1 / 100)⌋) := by
  rw [sections_lat, abs_of_pos (sub_pos.2 h)]

/-! ### Generic row-major grid lemmas -/

lemma length_grid {α : Type*} (g : ℕ → ℕ → α) (R C : ℕ) :
    ((List.range R).flatMap fun i => (List.range C).map (g i)).length = R * C := by
  induction R with
  | zero => simp
  | succ R ih =>
    rw [List.range_succ, List.flatMap_append, List.length_append, ih]
    simp [Nat.succ_mul]

lemma getElem?_grid {α : Type*} (g : ℕ → ℕ → α) {R C i j : ℕ}
    (hi : i < R) (hj : j < C) :
    ((List.range R).flatMap fun i => (List.range C).map (g i))[i * C + j]? =
      some (g i j) := by
  induction R with
  | zero => exact absurd hi (Nat.not_lt_zero i)
  | succ R ih =>
    rw [List.range_succ, List.flatMap_append, List.getElem?_append, length_grid]
    by_cases h : i < R
    · have hlt : i * C + j < R * C := by
        have h1 : i * C + j < (i + 1) * C := by
          simpa [Nat.succ_mul] using Nat.add_lt_add_left hj (i * C)
        exact lt_of_lt_of_le h1 (Nat.mul_le_mul_right C h)
      rw [if_pos hlt]
      exact ih h
    · have hiR : i = R := by omega
      subst hiR
      rw [if_neg (by omega), Nat.add_sub_cancel_left]
      simp [List.getElem?_map, List.getElem?_range hj]

lemma length_calculate_zoom_sections (a b c d : ℚ) (z : ℤ) :
    (calculate_zoom_sections a b c d z).length =
      sections_lat a c * sections_long b d :=
  length_grid _ _ _

lemma getElem?_calculate_zoom_sections {a b c d : ℚ} {z : ℤ} {i j : ℕ}
    (hi : i < sections_lat a c) (hj : j < sections_long b d) :
    (calculate_zoom_sections a b c d z)[i * sections_long b d + j]? =
      some (mkSection c d (lat_step a c) (long_step b d) i j) :=
  getElem?_grid _ hi hj

lemma mem_calculate_zoom_sections {s : Section} {a b c d : ℚ} {z : ℤ} :
    s ∈ calculate_zoom_sections a b c d z ↔
      ∃ i < sections_lat a c, ∃ j < sections_long b d,
        s = mkSection c d (lat_step a c) (long_step b d) i j := by
  simp only [calculate_zoom_sections, List.mem_flatMap, List.mem_map, List.mem_range]
  constructor
  · rintro ⟨i, hi, j, hj, rfl⟩
    exact ⟨i, hi, j, hj, rfl⟩
  · rintro ⟨i, hi, j, hj, rfl⟩
    exact ⟨i, hi, j, hj, rfl⟩

lemma sections_lat_self (x : ℚ) : sections_lat x x = 1 := by
  simp [sections_lat]

lemma lat_step_self (x : ℚ) : lat_step x x = 0 := by
  simp [lat_step]

lemma target_le_lat_step {a c : ℚ} (h : 1 / 100 ≤ a - c) :
    1 / 100 ≤ lat_step a c := by
  have hac : (0 : ℚ) < a - c := lt_of_lt_of_le (by norm_num) h
  have habs : |a - c| = a - c := abs_of_pos hac
  have hk1 : 1 ≤ ⌊(a - c) / (1 / 100)⌋ := by
    refine Int.le_floor.2 ?_
    rw [le_div_iff₀ (by norm_num : (0 : ℚ) < 1 / 100)]
    push_cast
    linarith
  have hR : sections_lat a c = (⌊(a - c) / (1 / 100)⌋).toNat := by
    rw [sections_lat, habs]
    exact max_eq_right (by omega)
  have hfl : ((⌊(a - c) / (1 / 100)⌋ : ℤ) : ℚ) ≤ 100 * (a - c) :=
    le_of_le_of_eq (Int.floor_le _) (by ring)
  have hcast : (((⌊(a - c) / (1 / 100)⌋).toNat : ℕ) : ℚ) = ((⌊(a - c) / (1 / 100)⌋ : ℤ) : ℚ) := by
    exact_mod_cast Int.toNat_of_nonneg (by omega)
  have hkpos : (0 : ℚ) < (((⌊(a - c) / (1 / 100)⌋).toNat : ℕ) : ℚ) := by
    rw [hcast]
    exact_mod_cast lt_of_lt_of_le one_pos hk1
  rw [lat_step, habs, hR, le_div_iff₀ hkpos, hcast]
  nlinarith

/-! ### Claims about the partitioner: zoom tagging, degenerate boxes,
grid counts, cell sizes, ordering -/

/-- C1 (counterexample): with `initial_zoom = 13`, some produced section's
`zoom` differs from the zoom argument passed in — the code tags sections
with `MIN_ZOOM_LEVEL`, not with the parameter. -/
theorem calculate_zoom_sections_zoom_ne_initial :
    ∃ s ∈ calculate_zoom_sections (1/100) (1/100) 0 0 13, s.zoom ≠ 13 := by
  with_unfolding_all decide

/-- C1 (amended): every section produced by `calculate_zoom_sections`
carries `zoom = MIN_ZOOM_LEVEL` (the constant 15), the same fixed value for
all cells, regardless of the `initial_zoom` argument. -/
theorem calculate_zoom_sections_zoom_fixed (a b c d : ℚ) (z : ℤ) :
    ∀ s ∈ calculate_zoom_sections a b c d z, s.zoom = MIN_ZOOM_LEVEL := by
  intro s hs
  rcases mem_calculate_zoom_sections.1 hs with ⟨i, _, j, _, rfl⟩
  rfl

/-- Witness for C1 (amended) at a concrete box and zoom argument. -/
theorem calculate_zoom_sections_zoom_fixed_witness :
    ({ ne_lat := 1/100, sw_lat := 0, ne_long := 1/100, sw_long := 0,
       zoom := 15 } : Section) ∈ calculate_zoom_sections (1/100) (1/100) 0 0 13
    ∧ ({ ne_lat := 1/100, sw_lat := 0, ne_long := 1/100, sw_long := 0,
         zoom := 15 } : Section).zoom = MIN_ZOOM_LEVEL :=
  ⟨by with_unfolding_all decide,
   calculate_zoom_sections_zoom_fixed (1/100) (1/100) 0 0 13 _
     (by with_unfolding_all decide)⟩

/-- C2 (counterexample): a box with zero latitude span but longitude span
`0.05` yields 5 sections, not one — a zero span in a single dimension does
not collapse the whole partition. -/
theorem degenerate_lat_span_many_sections :
    |(0 : ℚ) - 0| = 0 ∧ (calculate_zoom_sections 0 (5/100) 0 0 13).length ≠ 1 := by
  with_unfolding_all decide

/-- C2 (amended): when the latitude span and the longitude span are both
zero, `calculate_zoom_sections` returns exactly one section whose bounds
equal the input box. -/
theorem calculate_zoom_sections_point_box (a b : ℚ) (z : ℤ) :
    calculate_zoom_sections a b a b z =
      [{ ne_lat := a, sw_lat := a, ne_long := b, sw_long := b,
         zoom := MIN_ZOOM_LEVEL }] := by
  simp [calculate_zoom_sections, sections_long_eq_sections_lat, long_step_eq_lat_step,
    sections_lat_self, lat_step_self, List.range_succ, mkSection]

/-- C3: for a proper box (`sw_lat < ne_lat`, `sw_long < ne_long`) the
partitioner produces exactly `rows × columns` sections with
`rows = max 1 ⌊latSpan / 0.01⌋` and `columns = max 1 ⌊lonSpan / 0.01⌋`,
the counts are at least 1, the result is never empty, and every cell has
the uniform extents `latSpan / rows` and `lonSpan / columns`. -/
theorem calculate_zoom_sections_grid_counts (a b c d : ℚ) (z : ℤ)
    (h1 : c < a) (h2 : d < b) :
    (calculate_zoom_sections a b c d z).length =
        max 1 (Int.toNat ⌊(a - c) / (1 / 100)⌋) *
          max 1 (Int.toNat ⌊(b - d) / (1 / 100)⌋)
    ∧ 1 ≤ sections_lat a c ∧ 1 ≤ sections_long b d
    ∧ calculate_zoom_sections a b c d z ≠ []
    ∧ ∀ s ∈ calculate_zoom_sections a b c d z,
        s.ne_lat - s.sw_lat = (a - c) / (sections_lat a c : ℚ)
        ∧ s.ne_long - s.sw_long = (b - d) / (sections_long b d : ℚ) := by
  refine ⟨?_, sections_lat_pos a c, sections_lat_pos b d, ?_, ?_⟩
  · rw [length_calculate_zoom_sections, sections_long_eq_sections_lat,
      sections_lat_eq_of_lt h1, sections_lat_eq_of_lt h2]
  · rw [ne_eq, ← List.length_eq_zero, length_calculate_zoom_sections]
    exact Nat.mul_ne_zero (sections_lat_pos a c).ne' (sections_lat_pos b d).ne'
  · intro s hs
    rcases mem_calculate_zoom_sections.1 hs with ⟨i, _, j, _, rfl⟩
    rw [sections_long_eq_sections_lat, long_step_eq_lat_step]
    constructor
    · rw [← lat_step_eq_of_lt h1, mkSection]
      ring
    · rw [← lat_step_eq_of_lt h2, mkSection]
      ring

/-- Witness for C3 at the box `{north 0.02, east 0.03, south 0, west 0}`. -/
theorem calculate_zoom_sections_grid_counts_witness :
    (0 : ℚ) < 2/100 ∧ (0 : ℚ) < 3/100
    ∧ ((calculate_zoom_sections (2/100) (3/100) 0 0 13).length =
          max 1 (Int.toNat ⌊((2:ℚ)/100 - 0) / (1 / 100)⌋) *
            max 1 (Int.toNat ⌊((3:ℚ)/100 - 0) / (1 / 100)⌋)
        ∧ 1 ≤ sections_lat (2/100) 0 ∧ 1 ≤ sections_long (3/100) 0
        ∧ calculate_zoom_sections (2/100) (3/100) 0 0 13 ≠ []
        ∧ ∀ s ∈ calculate_zoom_sections (2/100) (3/100) 0 0 13,
            s.ne_lat - s.sw_lat = ((2:ℚ)/100 - 0) / (sections_lat (2/100) 0 : ℚ)
            ∧ s.ne_long - s.sw_long = ((3:ℚ)/100 - 0) / (sections_long (3/100) 0 : ℚ)) :=
  ⟨by norm_num, by norm_num,
   calculate_zoom_sections_grid_counts (2/100) (3/100) 0 0 13
     (by norm_num) (by norm_num)⟩

/-- C4: when both spans are at least the target cell size `0.01`, every
produced cell's latitude and longitude extents are at least `0.01` — the
floor-based counts make cells at least as large as the target. -/
theorem cell_extent_ge_target (a b c d : ℚ) (z : ℤ)
    (h1 : 1/100 ≤ a - c) (h2 : 1/100 ≤ b - d) :
    ∀ s ∈ calculate_zoom_sections a b c d z,
      1/100 ≤ s.ne_lat - s.sw_lat ∧ 1/100 ≤ s.ne_long - s.sw_long := by
  intro s hs
  rcases mem_calculate_zoom_sections.1 hs with ⟨i, _, j, _, rfl⟩
  rw [long_step_eq_lat_step]
  constructor
  · have := target_le_lat_step h1
    calc (1:ℚ)/100 ≤ lat_step a c := this
    _ = (c + (↑i + 1) * lat_step a c) - (c + ↑i * lat_step a c) := by ring
    _ = (mkSection c d (lat_step a c) (lat_step b d) i j).ne_lat
          - (mkSection c d (lat_step a c) (lat_step b d) i j).sw_lat := rfl
  · have := target_le_lat_step h2
    calc (1:ℚ)/100 ≤ lat_step b d := this
    _ = (d + (↑j + 1) * lat_step b d) - (d + ↑j * lat_step b d) := by ring
    _ = (mkSection c d (lat_step a c) (lat_step b d) i j).ne_long
          - (mkSection c d (lat_step a c) (lat_step b d) i j).sw_long := rfl

/-- Witness for C4 at the box `{north 0.035, east 0.01, south 0, west 0}`
(3 rows of height `0.035/3 ≥ 0.01`). -/
theorem cell_extent_ge_target_witness :
    (1:ℚ)/100 ≤ (7:ℚ)/200 - 0 ∧ (1:ℚ)/100 ≤ (1:ℚ)/100 - 0
    ∧ ∀ s ∈ calculate_zoom_sections (7/200) (1/100) 0 0 13,
        1/100 ≤ s.ne_lat - s.sw_lat ∧ 1/100 ≤ s.ne_long - s.sw_long :=
  ⟨by norm_num, by norm_num,
   cell_extent_ge_target (7/200) (1/100) 0 0 13 (by norm_num) (by norm_num)⟩

/-- C6: sections are emitted in deterministic row-major order — rows outer,
columns inner; the element at position `i * columns + j` is the cell of row
`i` (counted from the south edge) and column `j` (counted from the west
edge); the first emitted section is the southwest-most cell, whose
south-west corner is the box's south-west corner; each successive row/column
index shifts the cell north/east by one step. -/
theorem calculate_zoom_sections_row_major (a b c d : ℚ) (z : ℤ) :
    (calculate_zoom_sections a b c d z).length = sections_lat a c * sections_long b d
    ∧ (∀ i j, i < sections_lat a c → j < sections_long b d →
        (calculate_zoom_sections a b c d z)[i * sections_long b d + j]? =
          some (mkSection c d (lat_step a c) (long_step b d) i j))
    ∧ (calculate_zoom_sections a b c d z)[0]? =
        some (mkSection c d (lat_step a c) (long_step b d) 0 0)
    ∧ (mkSection c d (lat_step a c) (long_step b d) 0 0).sw_lat = c
    ∧ (mkSection c d (lat_step a c) (long_step b d) 0 0).sw_long = d
    ∧ (∀ i j, (mkSection c d (lat_step a c) (long_step b d) (i+1) j).sw_lat =
        (mkSection c d (lat_step a c) (long_step b d) i j).sw_lat + lat_step a c)
    ∧ (∀ i j, (mkSection c d (lat_step a c) (long_step b d) i (j+1)).sw_long =
        (mkSection c d (lat_step a c) (long_step b d) i j).sw_long + long_step b d) := by
  refine ⟨length_calculate_zoom_sections a b c d z,
    fun i j hi hj => getElem?_calculate_zoom_sections hi hj, ?_, ?_, ?_, ?_, ?_⟩
  · have h0 := getElem?_calculate_zoom_sections (a := a) (b := b) (c := c) (d := d)
      (z := z) (sections_lat_pos a c) (sections_lat_pos b d)
    simpa using h0
  · simp [mkSection]
  · simp [mkSection]
  · intro i j
    simp [mkSection]
    ring
  · intro i j
    simp [mkSection]
    ring

/-- Witness for C6: in a 2×3 grid the element at position `1*3+2 = 5` is the
cell of row 1, column 2. -/
theorem calculate_zoom_sections_row_major_witness :
    1 < sections_lat (2/100) 0 ∧ 2 < sections_long (3/100) 0
    ∧ (calculate_zoom_sections (2/100) (3/100) 0 0 13)[1 * sections_long (3/100) 0 + 2]? =
        some (mkSection 0 0 (lat_step (2/100) 0) (long_step (3/100) 0) 1 2) :=
  ⟨by with_unfolding_all decide, by with_unfolding_all decide,
   (calculate_zoom_sections_row_major (2/100) (3/100) 0 0 13).2.1 1 2
     (by with_unfolding_all decide) (by with_unfolding_all decide)⟩

/-! ### The partition property (C5) -/

/-- The closed rectangle of points covered by a section. -/
def Section.toSet (s : Section) : Set (ℚ × ℚ) :=
  {p | s.sw_lat ≤ p.1 ∧ p.1 ≤ s.ne_lat ∧ s.sw_long ≤ p.2 ∧ p.2 ≤ s.ne_long}

/-- The open interior of a section's rectangle. -/
def Section.inside (s : Section) : Set (ℚ × ℚ) :=
  {p | s.sw_lat < p.1 ∧ p.1 < s.ne_lat ∧ s.sw_long < p.2 ∧ p.2 < s.ne_long}

/-- The closed rectangle of the input bounding box. -/
def boxSet (ne_lat ne_long sw_lat sw_long : ℚ) : Set (ℚ × ℚ) :=
  {p | sw_lat ≤ p.1 ∧ p.1 ≤ ne_lat ∧ sw_long ≤ p.2 ∧ p.2 ≤ ne_long}

lemma exists_row_index {R : ℕ} (hR : 0 < R) {δ lo x : ℚ} (hδ : 0 < δ)
    (hlo : lo ≤ x) (hhi : x ≤ lo + R * δ) :
    ∃ i < R, lo + i * δ ≤ x ∧ x ≤ lo + (i + 1) * δ := by
  set t : ℚ := (x - lo) / δ with ht
  have ht0 : 0 ≤ t := div_nonneg (by linarith) hδ.le
  have hfl0 : 0 ≤ ⌊t⌋ := Int.floor_nonneg.2 ht0
  have hcast : ((⌊t⌋.toNat : ℕ) : ℚ) = ((⌊t⌋ : ℤ) : ℚ) := by
    exact_mod_cast Int.toNat_of_nonneg hfl0
  by_cases hcase : ⌊t⌋.toNat < R
  · refine ⟨⌊t⌋.toNat, hcase, ?_, ?_⟩
    · have h2 : ((⌊t⌋ : ℤ) : ℚ) ≤ t := Int.floor_le t
      have h3 : ((⌊t⌋ : ℤ) : ℚ) * δ ≤ x - lo := (le_div_iff₀ hδ).1 h2
      rw [hcast]
      linarith
    · have h4 : t < ((⌊t⌋ : ℤ) : ℚ) + 1 := Int.lt_floor_add_one t
      have h5 : x - lo < (((⌊t⌋ : ℤ) : ℚ) + 1) * δ := (div_lt_iff₀ hδ).1 h4
      rw [hcast]
      linarith
  · push_neg at hcase
    have hRt : (R : ℤ) ≤ ⌊t⌋ := by omega
    have h6 : ((R : ℕ) : ℚ) ≤ t := by
      have := Int.le_floor.1 hRt
      exact_mod_cast this
    have h7 : ((R : ℕ) : ℚ) * δ ≤ x - lo := (le_div_iff₀ hδ).1 h6
    have hxeq : x = lo + R * δ := le_antisymm hhi (by linarith)
    refine ⟨R - 1, by omega, ?_, ?_⟩
    · have hc : (((R - 1 : ℕ)) : ℚ) = (R : ℚ) - 1 := by
        push_cast [Nat.cast_sub (by omega : 1 ≤ R)]
        ring
      rw [hxeq, hc]
      nlinarith
    · have hc : (((R - 1 : ℕ)) : ℚ) + 1 = (R : ℚ) := by
        push_cast [Nat.cast_sub (by omega : 1 ≤ R)]
        ring
      rw [hxeq, hc]

lemma row_interval_disjoint {δ lo : ℚ} (hδ : 0 < δ) {i i' : ℕ} (h : i < i')
    {x : ℚ} (hx1 : x < lo + (i + 1) * δ) (hx2 : lo + i' * δ < x) : False := by
  have hle : ((i : ℚ) + 1) ≤ (i' : ℚ) := by exact_mod_cast h
  nlinarith

lemma mkSection_inside_disjoint {c d δ₁ δ₂ : ℚ} (hδ₁ : 0 < δ₁) (hδ₂ : 0 < δ₂)
    {i₁ j₁ i₂ j₂ : ℕ} (hne : i₁ ≠ i₂ ∨ j₁ ≠ j₂) :
    (mkSection c d δ₁ δ₂ i₁ j₁).inside ∩ (mkSection c d δ₁ δ₂ i₂ j₂).inside = ∅ := by
  ext p
  simp only [Set.mem_inter_iff, Set.mem_empty_iff_false, iff_false, not_and]
  intro hp₁ hp₂
  obtain ⟨ha1, ha2, ha3, ha4⟩ := hp₁
  obtain ⟨hb1, hb2, hb3, hb4⟩ := hp₂
  simp only [mkSection] at ha1 ha2 ha3 ha4 hb1 hb2 hb3 hb4
  rcases hne with h | h
  · rcases lt_or_gt_of_ne h with hlt | hlt
    · exact row_interval_disjoint hδ₁ hlt ha2 hb1
    · exact row_interval_disjoint hδ₁ hlt hb2 ha1
  · rcases lt_or_gt_of_ne h with hlt | hlt
    · exact row_interval_disjoint hδ₂ hlt ha4 hb3
    · exact row_interval_disjoint hδ₂ hlt hb4 ha3

lemma grid_index_eq {C k₁ k₂ : ℕ} (h : k₁ / C = k₂ / C) (h' : k₁ % C = k₂ % C) :
    k₁ = k₂ := by
  have e₁ : C * (k₁ / C) + k₁ % C = k₁ := Nat.div_add_mod k₁ C
  have e₂ : C * (k₂ / C) + k₂ % C = k₂ := Nat.div_add_mod k₂ C
  rw [← e₁, ← e₂, h, h']

lemma getElem_calculate_zoom_sections {a b c d : ℚ} {z : ℤ} {k : ℕ}
    (hk : k < (calculate_zoom_sections a b c d z).length) :
    (calculate_zoom_sections a b c d z)[k] =
      mkSection c d (lat_step a c) (long_step b d)
        (k / sections_long b d) (k % sections_long b d) := by
  have hC : 0 < sections_long b d := sections_lat_pos b d
  have hk' : k < sections_lat a c * sections_long b d := by
    rwa [length_calculate_zoom_sections] at hk
  have hdiv : k / sections_long b d < sections_lat a c :=
    (Nat.div_lt_iff_lt_mul hC).2 hk'
  have hmod : k % sections_long b d < sections_long b d := Nat.mod_lt _ hC
  have h := getElem?_calculate_zoom_sections (a := a) (b := b) (c := c) (d := d)
    (z := z) hdiv hmod
  have hk2 : k / sections_long b d * sections_long b d + k % sections_long b d = k :=
    Nat.div_add_mod' k (sections_long b d)
  rw [hk2, List.getElem?_eq_getElem hk] at h
  exact Option.some_inj.mp h

lemma cell_in_span {R : ℕ} {δ lo x : ℚ} (hδ : 0 < δ) {i : ℕ} (hi : i < R)
    (hx1 : lo + i * δ ≤ x) (hx2 : x ≤ lo + (i + 1) * δ) :
    lo ≤ x ∧ x ≤ lo + R * δ := by
  have h1 : (0 : ℚ) ≤ (i : ℚ) * δ := mul_nonneg (Nat.cast_nonneg i) hδ.le
  have h2 : ((i : ℚ) + 1) ≤ (R : ℚ) := by exact_mod_cast hi
  constructor
  · linarith
  · nlinarith

/-- C5: for a proper box the produced sections tile it exactly — every point
of the box lies in some section and every section's points lie in the box
(the union of sections equals the box, no gaps), and the open interiors of
sections at distinct positions in the list are pairwise disjoint (no
overlaps). -/
theorem calculate_zoom_sections_partition (a b c d : ℚ) (z : ℤ)
    (h1 : c < a) (h2 : d < b) :
    (∀ p : ℚ × ℚ,
        (∃ s ∈ calculate_zoom_sections a b c d z, p ∈ s.toSet) ↔ p ∈ boxSet a b c d)
    ∧ List.Pairwise (fun s₁ s₂ => s₁.inside ∩ s₂.inside = ∅)
        (calculate_zoom_sections a b c d z) := by
  have hδ₁ : 0 < lat_step a c := lat_step_pos h1
  have hδ₂ : 0 < lat_step b d := lat_step_pos h2
  have hRδ : (sections_lat a c : ℚ) * lat_step a c = a - c := by
    rw [sections_lat_mul_lat_step, abs_of_pos (sub_pos.2 h1)]
  have hCδ : (sections_lat b d : ℚ) * lat_step b d = b - d := by
    rw [sections_lat_mul_lat_step, abs_of_pos (sub_pos.2 h2)]
  constructor
  · intro p
    constructor
    · rintro ⟨s, hs, hp⟩
      rcases mem_calculate_zoom_sections.1 hs with ⟨i, hi, j, hj, rfl⟩
      rw [sections_long_eq_sections_lat] at hj
      rw [long_step_eq_lat_step] at hp
      obtain ⟨hp1, hp2, hp3, hp4⟩ := hp
      simp only [mkSection] at hp1 hp2 hp3 hp4
      have hx := cell_in_span hδ₁ hi hp1 hp2
      have hy := cell_in_span hδ₂ hj hp3 hp4
      refine ⟨hx.1, ?_, hy.1, ?_⟩
      · have := hx.2
        rw [hRδ] at this
        linarith
      · have := hy.2
        rw [hCδ] at this
        linarith
    · rintro ⟨hq1, hq2, hq3, hq4⟩
      have hxi : p.1 ≤ c + (sections_lat a c : ℚ) * lat_step a c := by
        rw [hRδ]; linarith
      have hyj : p.2 ≤ d + (sections_lat b d : ℚ) * lat_step b d := by
        rw [hCδ]; linarith
      obtain ⟨i, hi, hi1, hi2⟩ :=
        exists_row_index (sections_lat_pos a c) hδ₁ hq1 hxi
      obtain ⟨j, hj, hj1, hj2⟩ :=
        exists_row_index (sections_lat_pos b d) hδ₂ hq3 hyj
      refine ⟨mkSection c d (lat_step a c) (long_step b d) i j, ?_, ?_⟩
      · exact mem_calculate_zoom_sections.2 ⟨i, hi, j, hj, rfl⟩
      · exact ⟨hi1, hi2, hj1, hj2⟩
  · rw [List.pairwise_iff_getElem]
    intro k₁ k₂ hk₁ hk₂ hlt
    rw [getElem_calculate_zoom_sections hk₁, getElem_calculate_zoom_sections hk₂,
      long_step_eq_lat_step]
    apply mkSection_inside_disjoint hδ₁ hδ₂
    by_contra hcon
    push_neg at hcon
    exact absurd (grid_index_eq hcon.1 hcon.2) (Nat.ne_of_lt hlt)

/-- Witness for C5 at the box `{north 0.02, east 0.03, south 0, west 0}`. -/
theorem calculate_zoom_sections_partition_witness :
    (0 : ℚ) < 2/100 ∧ (0 : ℚ) < 3/100
    ∧ ((∀ p : ℚ × ℚ,
          (∃ s ∈ calculate_zoom_sections (2/100) (3/100) 0 0 13, p ∈ s.toSet)
            ↔ p ∈ boxSet (2/100) (3/100) 0 0)
       ∧ List.Pairwise (fun s₁ s₂ => s₁.inside ∩ s₂.inside = ∅)
           (calculate_zoom_sections (2/100) (3/100) 0 0 13)) :=
  ⟨by norm_num, by norm_num,
   calculate_zoom_sections_partition (2/100) (3/100) 0 0 13
     (by norm_num) (by norm_num)⟩

/-! ### Deduplication lemmas -/

lemma dedupeAux_eq_keepFirst :
    ∀ (xs : List ListingRecord) (seen : List String) (earlier : List ListingRecord),
      (∀ zp : String, zp ∈ seen ↔ zp ≠ "" ∧ ∃ e ∈ earlier, e.zpid = some zp) →
      dedupeAux seen xs = keepFirst earlier xs
  | [], _, _, _ => rfl
  | r :: rs, seen, earlier, hinv => by
    cases hz : r.zpid with
    | none =>
      have hcond : ¬ (truthy r.zpid = true ∧ ∀ e ∈ earlier, e.zpid ≠ r.zpid) := by
        rw [hz]
        simp [truthy]
      have hinv' : ∀ zp : String,
          zp ∈ seen ↔ zp ≠ "" ∧ ∃ e ∈ earlier ++ [r], e.zpid = some zp := by
        intro zp
        rw [hinv zp]
        constructor
        · rintro ⟨h1, e, he, h2⟩
          exact ⟨h1, e, List.mem_append_left _ he, h2⟩
        · rintro ⟨h1, e, he, h2⟩
          rcases List.mem_append.1 he with he | he
          · exact ⟨h1, e, he, h2⟩
          · rw [List.mem_singleton.1 he, hz] at h2
            cases h2
      rw [show dedupeAux seen (r :: rs) = dedupeAux seen rs from by
            simp only [dedupeAux, hz],
          show keepFirst earlier (r :: rs) = keepFirst (earlier ++ [r]) rs from by
            rw [keepFirst, if_neg hcond]]
      exact dedupeAux_eq_keepFirst rs seen (earlier ++ [r]) hinv'
    | some zp =>
      have hcond : (zp ≠ "" ∧ zp ∉ seen) ↔
          (truthy r.zpid = true ∧ ∀ e ∈ earlier, e.zpid ≠ r.zpid) := by
        rw [hz]
        constructor
        · rintro ⟨h1, h2⟩
          refine ⟨by simp [truthy, h1], fun e he hc => h2 ((hinv zp).2 ⟨h1, e, he, hc⟩)⟩
        · rintro ⟨h1, h2⟩
          have h1' : zp ≠ "" := by simpa [truthy] using h1
          refine ⟨h1', fun hmem => ?_⟩
          rcases (hinv zp).1 hmem with ⟨_, e, he, hez⟩
          exact h2 e he hez
      by_cases hk : zp ≠ "" ∧ zp ∉ seen
      · rw [show dedupeAux seen (r :: rs) = r :: dedupeAux (zp :: seen) rs from by
              simp only [dedupeAux, hz]
              rw [if_pos hk],
            show keepFirst earlier (r :: rs) = r :: keepFirst (earlier ++ [r]) rs from by
              rw [keepFirst, if_pos (hcond.1 hk)]]
        congr 1
        apply dedupeAux_eq_keepFirst rs (zp :: seen) (earlier ++ [r])
        intro zp'
        by_cases hzz : zp' = zp
        · subst hzz
          refine iff_of_true (List.mem_cons_self _ _)
            ⟨hk.1, r, List.mem_append_right _ (List.mem_singleton_self r), hz⟩
        · rw [List.mem_cons, or_iff_right hzz, hinv zp']
          constructor
          · rintro ⟨h1, e, he, h2⟩
            exact ⟨h1, e, List.mem_append_left _ he, h2⟩
          · rintro ⟨h1, e, he, h2⟩
            rcases List.mem_append.1 he with he | he
            · exact ⟨h1, e, he, h2⟩
            · rw [List.mem_singleton.1 he, hz] at h2
              exact absurd (Option.some_inj.1 h2).symm hzz
      · rw [show dedupeAux seen (r :: rs) = dedupeAux seen rs from by
              simp only [dedupeAux, hz]
              rw [if_neg hk],
            show keepFirst earlier (r :: rs) = keepFirst (earlier ++ [r]) rs from by
              rw [keepFirst, if_neg (fun hc => hk (hcond.2 hc))]]
        apply dedupeAux_eq_keepFirst rs seen (earlier ++ [r])
        intro zp'
        by_cases hzz : zp' = zp
        · subst hzz
          have hforward : zp' ∈ seen → zp' ≠ "" := fun hm => ((hinv zp').1 hm).1
          constructor
          · intro hm
            exact ⟨hforward hm, r,
              List.mem_append_right _ (List.mem_singleton_self r), hz⟩
          · rintro ⟨h1, -⟩
            rcases not_and_or.1 hk with h | h
            · exact absurd (not_not.1 h) h1
            · exact not_not.1 h
        · rw [hinv zp']
          constructor
          · rintro ⟨h1, e, he, h2⟩
            exact ⟨h1, e, List.mem_append_left _ he, h2⟩
          · rintro ⟨h1, e, he, h2⟩
            rcases List.mem_append.1 he with he | he
            · exact ⟨h1, e, he, h2⟩
            · rw [List.mem_singleton.1 he, hz] at h2
              exact absurd (Option.some_inj.1 h2).symm hzz

lemma dedupeAux_sublist :
    ∀ (xs : List ListingRecord) (seen : List String),
      (dedupeAux seen xs).Sublist xs
  | [], _ => List.Sublist.refl []
  | r :: rs, seen => by
    cases hz : r.zpid with
    | none =>
      simp only [dedupeAux, hz]
      exact (dedupeAux_sublist rs seen).cons r
    | some zp =>
      simp only [dedupeAux, hz]
      by_cases hk : zp ≠ "" ∧ zp ∉ seen
      · rw [if_pos hk]
        exact (dedupeAux_sublist rs (zp :: seen)).cons₂ r
      · rw [if_neg hk]
        exact (dedupeAux_sublist rs seen).cons r

lemma dedupeAux_mem_zpid :
    ∀ (xs : List ListingRecord) (seen : List String) (r : ListingRecord),
      r ∈ dedupeAux seen xs → ∃ zp, r.zpid = some zp ∧ zp ≠ "" ∧ zp ∉ seen
  | [], _, _, h => absurd h (List.not_mem_nil _)
  | r' :: rs, seen, r, h => by
    revert h
    cases hz : r'.zpid with
    | none =>
      simp only [dedupeAux, hz]
      exact fun h => dedupeAux_mem_zpid rs seen r h
    | some zp =>
      simp only [dedupeAux, hz]
      by_cases hk : zp ≠ "" ∧ zp ∉ seen
      · rw [if_pos hk]
        intro h
        rcases List.mem_cons.1 h with rfl | h
        · exact ⟨zp, hz, hk.1, hk.2⟩
        · rcases dedupeAux_mem_zpid rs (zp :: seen) r h with ⟨zp', h1, h2, h3⟩
          exact ⟨zp', h1, h2, fun hm => h3 (List.mem_cons_of_mem _ hm)⟩
      · rw [if_neg hk]
        exact fun h => dedupeAux_mem_zpid rs seen r h

lemma dedupeAux_zpid_nodup :
    ∀ (xs : List ListingRecord) (seen : List String),
      ((dedupeAux seen xs).map ListingRecord.zpid).Nodup
  | [], _ => List.nodup_nil
  | r :: rs, seen => by
    cases hz : r.zpid with
    | none =>
      simp only [dedupeAux, hz]
      exact dedupeAux_zpid_nodup rs seen
    | some zp =>
      simp only [dedupeAux, hz]
      by_cases hk : zp ≠ "" ∧ zp ∉ seen
      · rw [if_pos hk]
        rw [List.map_cons, List.nodup_cons]
        refine ⟨?_, dedupeAux_zpid_nodup rs (zp :: seen)⟩
        rw [hz]
        intro hmem
        rcases List.mem_map.1 hmem with ⟨r', hr', hr'z⟩
        rcases dedupeAux_mem_zpid rs (zp :: seen) r' hr' with ⟨zp', h1, _, h3⟩
        rw [h1] at hr'z
        cases Option.some_inj.1 hr'z
        exact h3 (List.mem_cons_self _ _)
      · rw [if_neg hk]
        exact dedupeAux_zpid_nodup rs seen

lemma dedupeAux_of_clean :
    ∀ (ys : List ListingRecord) (seen : List String),
      (∀ r ∈ ys, ∃ zp, r.zpid = some zp ∧ zp ≠ "" ∧ zp ∉ seen) →
      (ys.map ListingRecord.zpid).Nodup →
      dedupeAux seen ys = ys
  | [], _, _, _ => rfl
  | r :: rs, seen, hclean, hnodup => by
    rcases hclean r (List.mem_cons_self r rs) with ⟨zp, hz, hne, hns⟩
    simp only [dedupeAux, hz]
    rw [if_pos ⟨hne, hns⟩]
    congr 1
    rw [List.map_cons, List.nodup_cons] at hnodup
    apply dedupeAux_of_clean rs (zp :: seen) ?_ hnodup.2
    intro r' hr'
    rcases hclean r' (List.mem_cons_of_mem _ hr') with ⟨zp', h1, h2, h3⟩
    refine ⟨zp', h1, h2, fun hm => ?_⟩
    rcases List.mem_cons.1 hm with rfl | hm
    · have hmem : r'.zpid ∈ rs.map ListingRecord.zpid := List.mem_map_of_mem _ hr'
      rw [h1] at hmem
      rw [hz] at hnodup
      exact hnodup.1 hmem
    · exact h3 hm

/-! ### Claims about deduplication -/

/-- C7: `dedupe` keeps exactly the records with a non-empty identifier whose
identifier has not occurred in an earlier record (`specDedupe` is that
spec-side description), the output is a subsequence of the input (original
order, no resorting), and the worked example from the spec evaluates as
claimed. -/
theorem dedupe_keeps_first_occurrences :
    (∀ xs : List ListingRecord, dedupe xs = specDedupe xs)
    ∧ (∀ xs : List ListingRecord, (dedupe xs).Sublist xs)
    ∧ dedupe [⟨some "a", 0⟩, ⟨some "b", 1⟩, ⟨some "a", 2⟩, ⟨none, 3⟩, ⟨some "b", 4⟩]
        = [⟨some "a", 0⟩, ⟨some "b", 1⟩] := by
  refine ⟨fun xs => dedupeAux_eq_keepFirst xs [] [] ?_,
    fun xs => dedupeAux_sublist xs [], by decide⟩
  intro zp
  simp

/-- C8: deduplication is idempotent — applying `dedupe` to its own output
returns that output unchanged. -/
theorem dedupe_idempotent (xs : List ListingRecord) :
    dedupe (dedupe xs) = dedupe xs := by
  apply dedupeAux_of_clean
  · intro r hr
    rcases dedupeAux_mem_zpid xs [] r hr with ⟨zp, h1, h2, _⟩
    exact ⟨zp, h1, h2, List.not_mem_nil zp⟩
  · exact dedupeAux_zpid_nodup xs []

/-! ### Collector lemmas -/

lemma categories_nodup : categories.Nodup := by decide

lemma foldl_extend_apply :
    ∀ (cs : List String), cs.Nodup →
      ∀ (g : String → List ListingRecord) (acc : String → List ListingRecord)
        (c : String),
      (cs.foldl (fun a category => fun c' =>
          if c' = category then a c' ++ g category else a c') acc) c
        = if c ∈ cs then acc c ++ g c else acc c
  | [], _, _, _, _ => by simp
  | cat :: rest, hnd, g, acc, c => by
    rw [List.nodup_cons] at hnd
    rw [List.foldl_cons,
      foldl_extend_apply rest hnd.2 g
        (fun c' => if c' = cat then acc c' ++ g cat else acc c') c]
    by_cases hmem : c ∈ rest
    · have hne : c ≠ cat := fun h => hnd.1 (h ▸ hmem)
      rw [if_pos hmem, if_pos (List.mem_cons_of_mem _ hmem), if_neg hne]
    · by_cases heq : c = cat
      · subst heq
        rw [if_neg hmem, if_pos (List.mem_cons_self _ _), if_pos rfl]
      · rw [if_neg hmem, if_neg heq,
          if_neg (fun h => (List.mem_cons.1 h).elim heq hmem)]

lemma foldl_dedupe_apply :
    ∀ (cs : List String), cs.Nodup →
      ∀ (acc : String → List ListingRecord) (c : String),
      (cs.foldl (fun a category => fun c' =>
          if c' = category then dedupe (a c') else a c') acc) c
        = if c ∈ cs then dedupe (acc c) else acc c
  | [], _, _, _ => by simp
  | cat :: rest, hnd, acc, c => by
    rw [List.nodup_cons] at hnd
    rw [List.foldl_cons,
      foldl_dedupe_apply rest hnd.2
        (fun c' => if c' = cat then dedupe (acc c') else acc c') c]
    by_cases hmem : c ∈ rest
    · have hne : c ≠ cat := fun h => hnd.1 (h ▸ hmem)
      rw [if_pos hmem, if_pos (List.mem_cons_of_mem _ hmem), if_neg hne]
    · by_cases heq : c = cat
      · subst heq
        rw [if_neg hmem, if_pos (List.mem_cons_self _ _), if_pos rfl]
      · rw [if_neg hmem, if_neg heq,
          if_neg (fun h => (List.mem_cons.1 h).elim heq hmem)]

lemma dedupePass_apply (acc : String → List ListingRecord) (c : String) :
    dedupePass acc c = if c ∈ categories then dedupe (acc c) else acc c :=
  foldl_dedupe_apply categories categories_nodup acc c

lemma collectSections_apply (fetch : Fetch) :
    ∀ (sections : List Section) (init : String → List ListingRecord)
      (c : String), c ∈ categories →
      collectSections fetch sections init c =
        init c ++ sections.flatMap
          (fun sec => get_results_for_box fetch sec sec.zoom c)
  | [], init, c, _ => by simp [collectSections]
  | sec :: ss, init, c, hc => by
    rw [show collectSections fetch (sec :: ss) init =
          collectSections fetch ss
            (categories.foldl
              (fun acc category => fun c' =>
                if c' = category then
                  acc c' ++ get_results_for_box fetch sec sec.zoom category
                else acc c')
              init) from rfl,
      collectSections_apply fetch ss _ c hc,
      foldl_extend_apply categories categories_nodup
        (fun category => get_results_for_box fetch sec sec.zoom category) init c,
      if_pos hc, List.flatMap_cons, List.append_assoc]

lemma get_all_results_apply (fetch : Fetch) (a b c d : ℚ) (z : ℤ)
    {cat : String} (hcat : cat ∈ categories) :
    get_all_results fetch a b c d z cat =
      dedupe ((calculate_zoom_sections a b c d z).flatMap
        (fun sec => get_results_for_box fetch sec sec.zoom cat)) := by
  rw [get_all_results, dedupePass_apply, if_pos hcat,
    collectSections_apply fetch _ _ _ hcat]
  rfl

lemma get_results_for_box_mask (fetch : Fetch) (box : Section) (zv : ℤ)
    (cat : String) :
    get_results_for_box
        (fun ct bx zval =>
          match fetch ct bx zval with
          | .ok rs => .ok rs
          | .error _ => .ok ([] : List ListingRecord))
        box zv cat
      = get_results_for_box fetch box zv cat := by
  rw [get_results_for_box, get_results_for_box]
  by_cases hc : cat = "for_sale" ∨ cat = "for_rent" ∨ cat = "sold"
  · rw [if_pos hc, if_pos hc]
    cases fetch cat box zv <;> rfl
  · rw [if_neg hc, if_neg hc]

/-! ### Claims about the collector -/

/-- C9: a failing fetch for a (section, category) pair contributes exactly
zero records (`get_results_for_box` returns `[]` on an error), and for each
category the final result set is the deduplicated concatenation, in section
order, of what `get_results_for_box` yields for every pair — so failing
pairs are simply empty contributions and the run is total; masking every
error to an empty success leaves the overall result unchanged. -/
theorem fetch_failure_isolation (fetch : Fetch) (a b c d : ℚ) (z : ℤ) :
    (∀ (box : Section) (zv : ℤ) (cat e : String),
        fetch cat box zv = .error e → get_results_for_box fetch box zv cat = [])
    ∧ (∀ cat ∈ categories,
        get_all_results fetch a b c d z cat =
          dedupe ((calculate_zoom_sections a b c d z).flatMap
            (fun sec => get_results_for_box fetch sec sec.zoom cat)))
    ∧ (∀ cat ∈ categories,
        get_all_results fetch a b c d z cat =
          get_all_results
            (fun ct bx zval =>
              match fetch ct bx zval with
              | .ok rs => .ok rs
              | .error _ => .ok ([] : List ListingRecord))
            a b c d z cat) := by
  refine ⟨?_, fun cat hcat => get_all_results_apply fetch a b c d z hcat,
    fun cat hcat => ?_⟩
  · intro box zv cat e he
    by_cases hc : cat = "for_sale" ∨ cat = "for_rent" ∨ cat = "sold"
    · rw [get_results_for_box, if_pos hc, he]
    · rw [get_results_for_box, if_neg hc]
  · rw [get_all_results_apply fetch a b c d z hcat,
      get_all_results_apply _ a b c d z hcat]
    congr 1
    have hfun :
        (fun sec : Section =>
            get_results_for_box
              (fun ct bx zval =>
                match fetch ct bx zval with
                | .ok rs => .ok rs
                | .error _ => .ok ([] : List ListingRecord))
              sec sec.zoom cat)
          = fun sec : Section => get_results_for_box fetch sec sec.zoom cat :=
      funext fun sec => get_results_for_box_mask fetch sec sec.zoom cat
    rw [hfun]

/-- Witness for C9: a fetch that always raises contributes zero records for
a concrete section and category, and the run's final result is the
deduplicated accumulation formula. -/
theorem fetch_failure_isolation_witness :
    get_results_for_box (fun _ _ _ => Except.error "boom" : Fetch)
        { ne_lat := 0, sw_lat := 0, ne_long := 0, sw_long := 0, zoom := 15 }
        15 "for_sale" = []
    ∧ "for_sale" ∈ categories
    ∧ get_all_results (fun _ _ _ => Except.error "boom" : Fetch)
        0 0 0 0 13 "for_sale"
        = dedupe ((calculate_zoom_sections 0 0 0 0 13).flatMap
            (fun sec =>
              get_results_for_box (fun _ _ _ => Except.error "boom" : Fetch)
                sec sec.zoom "for_sale")) :=
  ⟨(fetch_failure_isolation (fun _ _ _ => Except.error "boom") 0 0 0 0 13).1
      { ne_lat := 0, sw_lat := 0, ne_long := 0, sw_long := 0, zoom := 15 }
      15 "for_sale" "boom" rfl,
   by decide,
   (fetch_failure_isolation (fun _ _ _ => Except.error "boom") 0 0 0 0 13).2.1
      "for_sale" (by decide)⟩

/-- C10: in the finalized result set, every record of every category has a
truthy (non-`None`, non-empty) `zpid`, and no two records in the same
category's list share a `zpid`. -/
theorem get_all_results_unique_truthy (fetch : Fetch) (a b c d : ℚ) (z : ℤ) :
    ∀ cat ∈ categories,
      (∀ r ∈ get_all_results fetch a b c d z cat, truthy r.zpid = true)
      ∧ ((get_all_results fetch a b c d z cat).map ListingRecord.zpid).Nodup := by
  intro cat hcat
  rw [get_all_results_apply fetch a b c d z hcat]
  constructor
  · intro r hr
    rcases dedupeAux_mem_zpid _ [] r hr with ⟨zp, h1, h2, _⟩
    rw [h1]
    simp [truthy, h2]
  · exact dedupeAux_zpid_nodup _ []

/-- Witness for C10 with a fetch that returns duplicate and id-less records
for the single cell of a point box. -/
theorem get_all_results_unique_truthy_witness :
    "for_sale" ∈ categories
    ∧ ((∀ r ∈ get_all_results
            (fun _ _ _ => Except.ok
              [⟨some "a", 0⟩, ⟨some "a", 1⟩, ⟨none, 2⟩, ⟨some "b", 3⟩] : Fetch)
            0 0 0 0 13 "for_sale",
          truthy r.zpid = true)
       ∧ ((get_all_results
            (fun _ _ _ => Except.ok
              [⟨some "a", 0⟩, ⟨some "a", 1⟩, ⟨none, 2⟩, ⟨some "b", 3⟩] : Fetch)
            0 0 0 0 13 "for_sale").map ListingRecord.zpid).Nodup) :=
  ⟨by decide,
   get_all_results_unique_truthy
     (fun _ _ _ => Except.ok [⟨some "a", 0⟩, ⟨some "a", 1⟩, ⟨none, 2⟩, ⟨some "b", 3⟩])
     0 0 0 0 13 "for_sale" (by decide)⟩

end ZillowScraper
